import Mathlib

/-!
Shallow embedding of the PR-Reviewer repository's reviewer assignment and
reconciliation engine.

The Go services (internal/usecase/pr_service.go, internal/usecase/team_service.go)
run against the in-memory repository (internal/infrastructure/storage/memory/repo.go).
We model the repository state as a record of lists: Go maps become association
lists whose list order stands for one fixed iteration order of the map, and
pointers to records become the records themselves.  Every repository method is a
pure function of the state; service methods thread the state explicitly and
return an Except value mirroring the Go (value, error) pair.  The random source
(rand.Perm, rand.Intn) is a parameter: a permutation of indices for CreatePR and
a natural number for ReassignReviewer, so theorems quantify over all draws.
Timestamps (time.Now) are passed as a Nat parameter.
-/

namespace PRReviewer

/-- Error codes of internal/domain/errors.go. -/
inductive ErrorCode where
  | teamExists
  | prExists
  | prMerged
  | notAssigned
  | noCandidate
  | notFound
  | internalError
  | badRequest
  | unauth
  deriving DecidableEq, Repr

/-- AppError of internal/domain/errors.go: a code and a message. -/
structure AppError where
  code : ErrorCode
  message : String
  deriving DecidableEq, Repr

def ErrTeamAlreadyExists : AppError := ⟨ErrorCode.teamExists, "team_name already exists"⟩
def ErrPRAlreadyExists : AppError := ⟨ErrorCode.prExists, "PR id already exists"⟩
def ErrPRMerged : AppError := ⟨ErrorCode.prMerged, "cannot reassign on merged PR"⟩
def ErrReviewerNotAssigned : AppError :=
  ⟨ErrorCode.notAssigned, "reviewer is not assigned to this PR"⟩
def ErrNoActiveCandidate : AppError :=
  ⟨ErrorCode.noCandidate, "no active replacement candidate in team"⟩
def ErrTeamNotFound : AppError := ⟨ErrorCode.notFound, "team not found"⟩
def ErrUserNotFound : AppError := ⟨ErrorCode.notFound, "user not found"⟩
def ErrPRNotFound : AppError := ⟨ErrorCode.notFound, "PR not found"⟩

/-- domain.User. -/
structure User where
  userID : String
  username : String
  teamName : String
  isActive : Bool
  deriving DecidableEq, Repr

/-- domain.PRStatus: OPEN or MERGED. -/
inductive PRStatus where
  | opened
  | merged
  deriving DecidableEq, Repr

/-- domain.PullRequest; timestamps are modelled as Nat. -/
structure PullRequest where
  pullRequestID : String
  pullRequestName : String
  authorID : String
  status : PRStatus
  createdAt : Option Nat
  mergedAt : Option Nat
  deriving DecidableEq, Repr

/-- The state of MemoryRepository: teams (the key set of the teams map),
users, prs keyed by their ids, and the prReviewers map. -/
structure Store where
  teams : List String
  users : List User
  prs : List PullRequest
  prReviewers : List (String × List String)
  deriving DecidableEq, Repr

/-- Reading a Go map with a default of nil: the value of the first entry
with the given key, or the empty list. -/
def lookupD (m : List (String × List String)) (k : String) : List String :=
  match m with
  | [] => []
  | (k', v) :: rest => if k' == k then v else lookupD rest k

/-- Writing a Go map entry: replace the first entry with the given key,
or append a new entry. -/
def setEntry (m : List (String × List String)) (k : String) (v : List String) :
    List (String × List String) :=
  match m with
  | [] => [(k, v)]
  | (k', v') :: rest => if k' == k then (k, v) :: rest else (k', v') :: setEntry rest k v

/-- MemoryRepository.GetUser. -/
def getUser (s : Store) (userID : String) : Except AppError User :=
  match s.users.find? (fun u => u.userID == userID) with
  | some u => Except.ok u
  | none => Except.error ErrUserNotFound

/-- MemoryRepository.TeamExists. -/
def teamExistsB (s : Store) (teamName : String) : Bool :=
  s.teams.contains teamName

/-- MemoryRepository.GetTeam: the team record with members collected from the
users map (iteration order = list order). -/
def getTeam (s : Store) (teamName : String) : Except AppError (String × List User) :=
  if teamExistsB s teamName then
    Except.ok (teamName, s.users.filter (fun u => u.teamName == teamName))
  else Except.error ErrTeamNotFound

/-- MemoryRepository.GetActiveTeamMembers: users of the team that are active
and differ from the excluded id (map iteration order = list order). -/
def getActiveTeamMembers (s : Store) (teamName : String) (excludeUserID : String) :
    List User :=
  s.users.filter (fun u =>
    u.teamName == teamName && u.isActive && !(u.userID == excludeUserID))

/-- MemoryRepository.PRExists. -/
def prExistsB (s : Store) (prID : String) : Bool :=
  (s.prs.find? (fun pr => pr.pullRequestID == prID)).isSome

/-- MemoryRepository.CreatePR: fails when the id exists, otherwise records the
PR and its reviewer list. -/
def createPRRepo (s : Store) (pr : PullRequest) (reviewers : List String) :
    Except AppError Store :=
  if prExistsB s pr.pullRequestID then Except.error ErrPRAlreadyExists
  else Except.ok { s with
    prs := s.prs ++ [pr],
    prReviewers := setEntry s.prReviewers pr.pullRequestID reviewers }

/-- MemoryRepository.GetPRWithReviewers. -/
def getPRWithReviewers (s : Store) (prID : String) :
    Except AppError (PullRequest × List String) :=
  match s.prs.find? (fun pr => pr.pullRequestID == prID) with
  | some pr => Except.ok (pr, lookupD s.prReviewers prID)
  | none => Except.error ErrPRNotFound

/-- MemoryRepository.MergePR: sets status MERGED and the merge timestamp. -/
def mergePRRepo (s : Store) (prID : String) (now : Nat) : Except AppError Store :=
  if prExistsB s prID then
    Except.ok { s with prs := s.prs.map (fun pr =>
      if pr.pullRequestID == prID then
        { pr with status := PRStatus.merged, mergedAt := some now }
      else pr) }
  else Except.error ErrPRNotFound

/-- MemoryRepository.IsReviewerAssigned. -/
def isReviewerAssigned (s : Store) (prID userID : String) : Bool :=
  (lookupD s.prReviewers prID).contains userID

/-- MemoryRepository.AddReviewer: appends to the PR's reviewer list. -/
def addReviewerRepo (s : Store) (prID userID : String) : Store :=
  { s with prReviewers :=
      setEntry s.prReviewers prID (lookupD s.prReviewers prID ++ [userID]) }

/-- Removing the first occurrence of an id, as the loop of
MemoryRepository.RemoveReviewer does. -/
def removeFirst (l : List String) (userID : String) : List String :=
  match l with
  | [] => []
  | x :: xs => if x == userID then xs else x :: removeFirst xs userID

/-- MemoryRepository.RemoveReviewer: removes the first occurrence; if the id is
not present the map is left untouched. -/
def removeReviewerRepo (s : Store) (prID userID : String) : Store :=
  if (lookupD s.prReviewers prID).contains userID then
    { s with prReviewers :=
        setEntry s.prReviewers prID (removeFirst (lookupD s.prReviewers prID) userID) }
  else s

/-- MemoryRepository.DeactivateUsers: for each id in order, set the matching
user inactive (no effect for unknown ids). -/
def deactivateUsersRepo (s : Store) (userIDs : List String) : Store :=
  userIDs.foldl (fun st uid =>
    { st with users := st.users.map (fun u =>
        if u.userID == uid then { u with isActive := false } else u) }) s

/-- MemoryRepository.GetOpenPRsWithReviewers: the open PRs having at least one
reviewer among the given ids, with their reviewer lists. -/
def getOpenPRsWithReviewers (s : Store) (reviewerIDs : List String) :
    List PullRequest × List (String × List String) :=
  let affected := s.prs.filter (fun pr =>
    pr.status == PRStatus.opened &&
      (lookupD s.prReviewers pr.pullRequestID).any (fun r => reviewerIDs.contains r))
  (affected, affected.map (fun pr => (pr.pullRequestID, lookupD s.prReviewers pr.pullRequestID)))

/-- domain.PRReassignment. -/
structure PRReassignment where
  pullRequestID : String
  oldReviewerID : String
  newReviewerID : String
  deriving DecidableEq, Repr

/-- The list-level core of one step of MemoryRepository.BulkReassignReviewers:
drop every occurrence of the old reviewer, append the new one when it is
nonempty. -/
def reassignOne (reviewers : List String) (rec : PRReassignment) : List String :=
  let kept := reviewers.filter (fun r => !(r == rec.oldReviewerID))
  if rec.newReviewerID == "" then kept else kept ++ [rec.newReviewerID]

/-- One step of MemoryRepository.BulkReassignReviewers applied to the map. -/
def applyReassignment (m : List (String × List String)) (rec : PRReassignment) :
    List (String × List String) :=
  setEntry m rec.pullRequestID (reassignOne (lookupD m rec.pullRequestID) rec)

/-- MemoryRepository.BulkReassignReviewers. -/
def bulkReassignReviewers (s : Store) (recs : List PRReassignment) : Store :=
  { s with prReviewers := recs.foldl applyReassignment s.prReviewers }

/-- domain.TransactionManager semantics over the pure state: run the body and,
when it fails, discard its writes (rollback). -/
def withinTransaction {α : Type}
    (f : Store → Except AppError α × Store) (s : Store) :
    Except AppError α × Store :=
  match f s with
  | (Except.error e, _) => (Except.error e, s)
  | (Except.ok v, s') => (Except.ok v, s')

/-- domain.CreatePRRequest. -/
structure CreatePRRequest where
  pullRequestID : String
  pullRequestName : String
  authorID : String
  deriving DecidableEq, Repr

/-- domain.PullRequestResponse. -/
structure PullRequestResponse where
  pullRequestID : String
  pullRequestName : String
  authorID : String
  status : PRStatus
  assignedReviewers : List String
  createdAt : Option Nat
  mergedAt : Option Nat
  deriving DecidableEq, Repr

/-- PRService.selectReviewers: all candidates when there are at most n of them,
otherwise the first n positions of a random permutation of the candidate
indices.  The permutation drawn by rand.Perm is the parameter perm; out-of-range
indices (impossible for a genuine permutation) are skipped. -/
def selectReviewers (candidates : List User) (n : Nat) (perm : List Nat) : List User :=
  if candidates.length = 0 then []
  else if candidates.length ≤ n then candidates
  else (perm.take n).filterMap (fun i => candidates[i]?)

/-- Transaction body of PRService.CreatePR; now is the creation timestamp and
perm the random permutation drawn for reviewer selection. -/
def createPRBody (req : CreatePRRequest) (now : Nat) (perm : List Nat) (s : Store) :
    Except AppError PullRequestResponse × Store :=
  if prExistsB s req.pullRequestID then (Except.error ErrPRAlreadyExists, s)
  else
    match getUser s req.authorID with
    | Except.error e => (Except.error e, s)
    | Except.ok author =>
      let candidates := getActiveTeamMembers s author.teamName req.authorID
      let reviewers := selectReviewers candidates 2 perm
      let reviewerIDs := reviewers.map (fun r => r.userID)
      let pr : PullRequest :=
        { pullRequestID := req.pullRequestID
          pullRequestName := req.pullRequestName
          authorID := req.authorID
          status := PRStatus.opened
          createdAt := some now
          mergedAt := none }
      match createPRRepo s pr reviewerIDs with
      | Except.error e => (Except.error e, s)
      | Except.ok s' =>
        (Except.ok
          { pullRequestID := pr.pullRequestID
            pullRequestName := pr.pullRequestName
            authorID := pr.authorID
            status := pr.status
            assignedReviewers := reviewerIDs
            createdAt := pr.createdAt
            mergedAt := pr.mergedAt }, s')

/-- PRService.CreatePR: the body wrapped in a transaction. -/
def createPR (req : CreatePRRequest) (now : Nat) (perm : List Nat) (s : Store) :
    Except AppError PullRequestResponse × Store :=
  withinTransaction (createPRBody req now perm) s

/-- Builds the PullRequestResponse from a PR and its reviewer list, as the
literals of PRService.MergePR do. -/
def prResponse (pr : PullRequest) (reviewers : List String) : PullRequestResponse :=
  { pullRequestID := pr.pullRequestID
    pullRequestName := pr.pullRequestName
    authorID := pr.authorID
    status := pr.status
    assignedReviewers := reviewers
    createdAt := pr.createdAt
    mergedAt := pr.mergedAt }

/-- Transaction body of PRService.MergePR: an already merged PR is returned
as-is; an open PR is merged (timestamp now) and re-read. -/
def mergePRBody (prID : String) (now : Nat) (s : Store) :
    Except AppError PullRequestResponse × Store :=
  match getPRWithReviewers s prID with
  | Except.error e => (Except.error e, s)
  | Except.ok (pr, reviewers) =>
    if pr.status == PRStatus.merged then (Except.ok (prResponse pr reviewers), s)
    else
      match mergePRRepo s prID now with
      | Except.error e => (Except.error e, s)
      | Except.ok s1 =>
        match getPRWithReviewers s1 prID with
        | Except.error e => (Except.error e, s1)
        | Except.ok (pr2, reviewers2) => (Except.ok (prResponse pr2 reviewers2), s1)

/-- PRService.MergePR: the body wrapped in a transaction. -/
def mergePR (prID : String) (now : Nat) (s : Store) :
    Except AppError PullRequestResponse × Store :=
  withinTransaction (mergePRBody prID now) s

/-- domain.ReassignRequest. -/
structure ReassignRequest where
  pullRequestID : String
  oldUserID : String
  deriving DecidableEq, Repr

/-- domain.ReassignResponse. -/
structure ReassignResponse where
  pr : PullRequestResponse
  replacedBy : String
  deriving DecidableEq, Repr

/-- PRService.filterAvailableReviewers: drop the PR author and every
already-assigned reviewer from the candidates. -/
def filterAvailableReviewers (candidates : List User) (pr : PullRequest)
    (reviewers : List String) : List User :=
  candidates.filter (fun c =>
    !(c.userID == pr.authorID) && !(reviewers.contains c.userID))

/-- Transaction body of PRService.ReassignReviewer; k is the value drawn by
rand.Intn, reduced modulo the pool size. -/
def reassignBody (req : ReassignRequest) (k : Nat) (s : Store) :
    Except AppError ReassignResponse × Store :=
  match getPRWithReviewers s req.pullRequestID with
  | Except.error e => (Except.error e, s)
  | Except.ok (pr, reviewers) =>
    if pr.status == PRStatus.merged then (Except.error ErrPRMerged, s)
    else if !(isReviewerAssigned s req.pullRequestID req.oldUserID) then
      (Except.error ErrReviewerNotAssigned, s)
    else
      match getUser s req.oldUserID with
      | Except.error e => (Except.error e, s)
      | Except.ok oldReviewer =>
        let candidates := getActiveTeamMembers s oldReviewer.teamName req.oldUserID
        match filterAvailableReviewers candidates pr reviewers with
        | [] => (Except.error ErrNoActiveCandidate, s)
        | a :: rest =>
          let newReviewer := (a :: rest).getD (k % (rest.length + 1)) a
          let s1 := removeReviewerRepo s req.pullRequestID req.oldUserID
          let s2 := addReviewerRepo s1 req.pullRequestID newReviewer.userID
          match getPRWithReviewers s2 req.pullRequestID with
          | Except.error e => (Except.error e, s2)
          | Except.ok (pr2, reviewers2) =>
            (Except.ok { pr := prResponse pr2 reviewers2
                         replacedBy := newReviewer.userID }, s2)

/-- PRService.ReassignReviewer: the body wrapped in a transaction. -/
def reassignReviewer (req : ReassignRequest) (k : Nat) (s : Store) :
    Except AppError ReassignResponse × Store :=
  withinTransaction (reassignBody req k) s

/-- domain.TeamMember. -/
structure TeamMember where
  userID : String
  username : String
  isActive : Bool
  deriving DecidableEq, Repr

/-- domain.CreateTeamRequest. -/
structure CreateTeamRequest where
  teamName : String
  members : List TeamMember
  deriving DecidableEq, Repr

/-- domain.TeamResponse. -/
structure TeamResponse where
  teamName : String
  members : List TeamMember
  deriving DecidableEq, Repr

/-- A Go map assignment users[id] = u: replace the entry with that key, or add
one. -/
def upsertUser (users : List User) (u : User) : List User :=
  if users.any (fun v => v.userID == u.userID) then
    users.map (fun v => if v.userID == u.userID then u else v)
  else users ++ [u]

/-- MemoryRepository.CreateTeam: fails when the team name exists, otherwise
records the team and writes every member into the users map (overwriting any
existing record with the same user id). -/
def createTeamRepo (s : Store) (teamName : String) (members : List User) :
    Except AppError Store :=
  if teamExistsB s teamName then Except.error ErrTeamAlreadyExists
  else Except.ok { s with
    teams := s.teams ++ [teamName],
    users := members.foldl (fun us m => upsertUser us { m with teamName := teamName }) s.users }

/-- Transaction body of TeamService.CreateTeam. -/
def createTeamBody (req : CreateTeamRequest) (s : Store) :
    Except AppError TeamResponse × Store :=
  if teamExistsB s req.teamName then (Except.error ErrTeamAlreadyExists, s)
  else
    let members := req.members.map (fun m =>
      { userID := m.userID, username := m.username,
        teamName := req.teamName, isActive := m.isActive : User })
    match createTeamRepo s req.teamName members with
    | Except.error e => (Except.error e, s)
    | Except.ok s' => (Except.ok { teamName := req.teamName, members := req.members }, s')

/-- TeamService.CreateTeam: the body wrapped in a transaction. -/
def createTeam (req : CreateTeamRequest) (s : Store) :
    Except AppError TeamResponse × Store :=
  withinTransaction (createTeamBody req) s

/-- domain.DeactivateTeamUsersRequest. -/
structure DeactivateTeamUsersRequest where
  teamName : String
  userIDs : List String
  deriving DecidableEq, Repr

/-- domain.PRReassignmentSummary. -/
structure PRReassignmentSummary where
  pullRequestID : String
  oldReviewers : List String
  newReviewers : List String
  deriving DecidableEq, Repr

/-- domain.DeactivateTeamUsersResponse. -/
structure DeactivateTeamUsersResponse where
  deactivatedUsers : List String
  reassignedPRs : List PRReassignmentSummary
  deriving DecidableEq, Repr

/-- TeamService.filterValidTeamUsers: keep a requested id only if the user
exists and belongs to the requested team (drop the rest silently). -/
def filterValidTeamUsersList (s : Store) (teamName : String) : List String → List String
  | [] => []
  | uid :: rest =>
    let tail := filterValidTeamUsersList s teamName rest
    match getUser s uid with
    | Except.error _ => tail
    | Except.ok user => if user.teamName == teamName then uid :: tail else tail

/-- TeamService.filterValidTeamUsers applied to a request. -/
def filterValidTeamUsers (s : Store) (req : DeactivateTeamUsersRequest) : List String :=
  filterValidTeamUsersList s req.teamName req.userIDs

/-- TeamService.getValidTeamUserIDsForDeactivation: the team must exist; an
empty valid set is a BadRequest. -/
def getValidTeamUserIDsForDeactivation (s : Store) (req : DeactivateTeamUsersRequest) :
    Except AppError (List String) :=
  match getTeam s req.teamName with
  | Except.error e => Except.error e
  | Except.ok _ =>
    let validUserIDs := filterValidTeamUsers s req
    if validUserIDs.length = 0 then
      Except.error ⟨ErrorCode.badRequest, "no valid users to deactivate"⟩
    else Except.ok validUserIDs

/-- TeamService.isValidReplacementCandidate: not the author, not already
assigned or planned, not in the deactivation batch. -/
def isValidReplacementCandidate (candidate : User) (authorID : String)
    (assignedReviewers deactivatingSet : List String) : Bool :=
  if candidate.userID == authorID then false
  else if assignedReviewers.contains candidate.userID then false
  else if deactivatingSet.contains candidate.userID then false
  else true

/-- The candidate loop of TeamService.findReviewerReplacement: the first valid
candidate's id, or the empty string. -/
def findFirstValidCandidate (candidates : List User) (authorID : String)
    (assignedReviewers deactivatingSet : List String) : String :=
  match candidates with
  | [] => ""
  | c :: rest =>
    if isValidReplacementCandidate c authorID assignedReviewers deactivatingSet then
      c.userID
    else findFirstValidCandidate rest authorID assignedReviewers deactivatingSet

/-- TeamService.findReviewerReplacement: scan the active members of the removed
reviewer's own team (excluding that reviewer) for the first valid candidate;
empty string when the reviewer is unknown or no candidate qualifies. -/
def findReviewerReplacement (s : Store) (reviewerID : String) (author : User)
    (assignedReviewers deactivatingSet : List String) : String :=
  match getUser s reviewerID with
  | Except.error _ => ""
  | Except.ok reviewer =>
    findFirstValidCandidate (getActiveTeamMembers s reviewer.teamName reviewerID)
      author.userID assignedReviewers deactivatingSet

/-- The second loop of TeamService.processPRReassignments: walk the current
reviewers, and for each one in the deactivation set emit one reassignment
record, extend the planned-reviewer set with the chosen replacement, and
collect the old and new reviewer ids in order. -/
def processRemovedReviewers (s : Store) (pr : PullRequest) (author : User)
    (deactivatingSet : List String) (reviewers assignedReviewers : List String) :
    List PRReassignment × List String × List String :=
  match reviewers with
  | [] => ([], [], [])
  | r :: rest =>
    if deactivatingSet.contains r then
      let replacement := findReviewerReplacement s r author assignedReviewers deactivatingSet
      let assigned' :=
        if replacement == "" then assignedReviewers else assignedReviewers ++ [replacement]
      let tail := processRemovedReviewers s pr author deactivatingSet rest assigned'
      (⟨pr.pullRequestID, r, replacement⟩ :: tail.1,
       r :: tail.2.1,
       if replacement == "" then tail.2.2 else replacement :: tail.2.2)
    else processRemovedReviewers s pr author deactivatingSet rest assignedReviewers

/-- TeamService.processPRReassignments: look up the author (failure yields an
empty plan), seed the planned set with the staying reviewers, then process the
removed ones; the summary's new list is the staying reviewers followed by the
replacements in processing order. -/
def processPRReassignments (s : Store) (pr : PullRequest)
    (currentReviewers deactivatingSet : List String) :
    List PRReassignment × PRReassignmentSummary :=
  match getUser s pr.authorID with
  | Except.error _ => ([], ⟨"", [], []⟩)
  | Except.ok author =>
    let staying := currentReviewers.filter (fun r => !(deactivatingSet.contains r))
    let res := processRemovedReviewers s pr author deactivatingSet currentReviewers staying
    (res.1, ⟨pr.pullRequestID, res.2.1, staying ++ res.2.2⟩)

/-- TeamService.planReviewerReassignments: process every affected PR in order,
concatenating the reassignment records and keeping only nonempty summaries. -/
def planReviewerReassignments (s : Store) (prs : List PullRequest)
    (reviewersMap : List (String × List String)) (deactivatingSet : List String) :
    List PRReassignment × List PRReassignmentSummary :=
  match prs with
  | [] => ([], [])
  | pr :: rest =>
    let cur :=
      processPRReassignments s pr (lookupD reviewersMap pr.pullRequestID) deactivatingSet
    let restPlan := planReviewerReassignments s rest reviewersMap deactivatingSet
    (cur.1 ++ restPlan.1,
     (if cur.2.oldReviewers.length > 0 then [cur.2] else []) ++ restPlan.2)

/-- TeamService.applyDeactivationChanges: bulk-apply the reviewer swaps (when
any were planned), then deactivate the users. -/
def applyDeactivationChanges (s : Store) (validUserIDs : List String)
    (reassignments : List PRReassignment) : Store :=
  let s1 := if reassignments.length > 0 then bulkReassignReviewers s reassignments else s
  deactivateUsersRepo s1 validUserIDs

/-- Transaction body of TeamService.DeactivateTeamUsers. -/
def deactivateTeamUsersBody (req : DeactivateTeamUsersRequest) (s : Store) :
    Except AppError DeactivateTeamUsersResponse × Store :=
  match getValidTeamUserIDsForDeactivation s req with
  | Except.error e => (Except.error e, s)
  | Except.ok validUserIDs =>
    let opened := getOpenPRsWithReviewers s validUserIDs
    let plan := planReviewerReassignments s opened.1 opened.2 validUserIDs
    let s' := applyDeactivationChanges s validUserIDs plan.1
    (Except.ok { deactivatedUsers := validUserIDs, reassignedPRs := plan.2 }, s')

/-- TeamService.DeactivateTeamUsers: the body wrapped in a transaction. -/
def deactivateTeamUsers (req : DeactivateTeamUsersRequest) (s : Store) :
    Except AppError DeactivateTeamUsersResponse × Store :=
  withinTransaction (deactivateTeamUsersBody req) s

/-- Well-formedness of a store, maintained by the engine: user ids are unique
(Go map keys), PR ids are unique, every reviewer list is duplicate-free, and
every PR's author exists in the users map. -/
def WF (s : Store) : Prop :=
  (s.users.map User.userID).Nodup ∧
  (s.prs.map PullRequest.pullRequestID).Nodup ∧
  (∀ e ∈ s.prReviewers, e.2.Nodup) ∧
  (∀ pr ∈ s.prs, ∃ u ∈ s.users, u.userID = pr.authorID)

instance (s : Store) : Decidable (WF s) := by
  unfold WF; infer_instance

/-! Helper lemmas about the association-list map operations. -/

theorem lookupD_setEntry (m : List (String × List String)) (k k' : String)
    (v : List String) :
    lookupD (setEntry m k v) k' = if k = k' then v else lookupD m k' := by
  induction m with
  | nil =>
    simp only [setEntry, lookupD, beq_iff_eq]
  | cons e rest ih =>
    obtain ⟨ek, ev⟩ := e
    simp only [setEntry, beq_iff_eq]
    by_cases h1 : ek = k
    · subst h1
      simp only [if_pos rfl, lookupD, beq_iff_eq]
      by_cases h2 : ek = k' <;> simp [h2]
    · simp only [if_neg h1, lookupD, beq_iff_eq, ih]
      by_cases h2 : ek = k'
      · have hkk : ¬ k = k' := fun hk => h1 (hk ▸ h2)
        simp [h2, hkk]
      · simp [h2]

theorem lookupD_eq_nil_or_mem (m : List (String × List String)) (k : String) :
    lookupD m k = [] ∨ ∃ e ∈ m, e.2 = lookupD m k := by
  induction m with
  | nil => exact Or.inl rfl
  | cons e rest ih =>
    obtain ⟨ek, ev⟩ := e
    by_cases h : ek = k
    · right
      refine ⟨(ek, ev), List.mem_cons_self _ _, ?_⟩
      simp [lookupD, h]
    · simp only [lookupD, beq_iff_eq, if_neg h]
      rcases ih with h1 | ⟨e, he, hev⟩
      · exact Or.inl h1
      · exact Or.inr ⟨e, List.mem_cons_of_mem _ he, hev⟩

theorem mem_removeFirst {l : List String} {x a : String}
    (h : x ∈ removeFirst l a) : x ∈ l := by
  induction l with
  | nil => simp [removeFirst] at h
  | cons b rest ih =>
    simp only [removeFirst, beq_iff_eq] at h
    by_cases hb : b = a
    · rw [if_pos hb] at h
      exact List.mem_cons_of_mem _ h
    · rw [if_neg hb] at h
      rcases List.mem_cons.mp h with h1 | h1
      · exact h1 ▸ List.mem_cons_self _ _
      · exact List.mem_cons_of_mem _ (ih h1)

theorem not_mem_removeFirst_self {l : List String} {a : String}
    (hnd : l.Nodup) : a ∉ removeFirst l a := by
  induction l with
  | nil => simp [removeFirst]
  | cons b rest ih =>
    simp only [removeFirst, beq_iff_eq]
    rcases List.nodup_cons.mp hnd with ⟨hb, hrest⟩
    by_cases hba : b = a
    · rw [if_pos hba]
      simpa [hba] using hb
    · rw [if_neg hba]
      intro hmem
      rcases List.mem_cons.mp hmem with h1 | h1
      · exact hba h1.symm
      · exact ih hrest h1

theorem find?_map_pred {α : Type} (l : List α) (f : α → α) (p : α → Bool)
    (h : ∀ x, p (f x) = p x) :
    (l.map f).find? p = (l.find? p).map f := by
  induction l with
  | nil => rfl
  | cons x rest ih =>
    simp only [List.map_cons, List.find?]
    rw [h x]
    by_cases hp : p x = true
    · simp [hp]
    · have : p x = false := by simpa using hp
      simp [this, ih]

theorem mem_filterValidTeamUsersList (s : Store) (t : String) (ids : List String)
    (uid : String) :
    uid ∈ filterValidTeamUsersList s t ids ↔
      uid ∈ ids ∧ ∃ u, getUser s uid = Except.ok u ∧ u.teamName = t := by
  induction ids with
  | nil => simp [filterValidTeamUsersList]
  | cons x rest ih =>
    simp only [filterValidTeamUsersList]
    cases hx : getUser s x with
    | error e =>
      simp only []
      rw [ih]
      constructor
      · rintro ⟨hmem, hu⟩
        exact ⟨List.mem_cons_of_mem _ hmem, hu⟩
      · rintro ⟨hmem, u, hu, hteam⟩
        rcases List.mem_cons.mp hmem with rfl | hmem'
        · rw [hx] at hu; cases hu
        · exact ⟨hmem', u, hu, hteam⟩
    | ok user =>
      by_cases ht : user.teamName = t
      · simp only [beq_iff_eq, if_pos ht, List.mem_cons, ih]
        constructor
        · rintro (rfl | ⟨hmem, hu⟩)
          · exact ⟨Or.inl rfl, user, hx, ht⟩
          · exact ⟨Or.inr hmem, hu⟩
        · rintro ⟨hmem, u, hu, hteam⟩
          rcases hmem with rfl | hmem'
          · exact Or.inl rfl
          · exact Or.inr ⟨hmem', u, hu, hteam⟩
      · simp only [beq_iff_eq, if_neg ht, ih]
        constructor
        · rintro ⟨hmem, hu⟩
          exact ⟨List.mem_cons_of_mem _ hmem, hu⟩
        · rintro ⟨hmem, u, hu, hteam⟩
          rcases List.mem_cons.mp hmem with rfl | hmem'
          · rw [hx] at hu
            cases hu
            exact absurd hteam ht
          · exact ⟨hmem', u, hu, hteam⟩

/-! Theorems for the behavioural claims, with concrete stores used to witness
the hypotheses. -/

/-- A store with one team alpha and one user record, used to exhibit the
user-overwrite behaviour of CreateTeam. -/
def overwriteStore : Store :=
  { teams := ["alpha"]
    users := [⟨"u1", "Alice", "alpha", true⟩]
    prs := []
    prReviewers := [] }

/-- C10: CreateTeam with a fresh team name (beta) succeeds although the
requested member's user id u1 already exists in the store under team alpha,
and it overwrites that user record, silently changing the owning team, the
display name, and the activity flag to the values of the request. -/
theorem createTeam_overwrites_existing_user :
    (createTeamBody ⟨"beta", [⟨"u1", "Bob", false⟩]⟩ overwriteStore).1 =
      Except.ok ⟨"beta", [⟨"u1", "Bob", false⟩]⟩ ∧
    getUser overwriteStore "u1" = Except.ok ⟨"u1", "Alice", "alpha", true⟩ ∧
    getUser (createTeamBody ⟨"beta", [⟨"u1", "Bob", false⟩]⟩ overwriteStore).2 "u1" =
      Except.ok ⟨"u1", "Bob", "beta", false⟩ :=
  ⟨rfl, rfl, rfl⟩

/-- C8: DeactivateTeamUsers on a team name for which no team exists fails with
ErrTeamNotFound (error kind NotFound, never BadRequest) before any user-id
validation, and the store is unchanged. -/
theorem deactivateTeamUsers_team_not_found (s : Store)
    (req : DeactivateTeamUsersRequest)
    (h : teamExistsB s req.teamName = false) :
    deactivateTeamUsersBody req s = (Except.error ErrTeamNotFound, s) ∧
    deactivateTeamUsers req s = (Except.error ErrTeamNotFound, s) ∧
    ErrTeamNotFound.code = ErrorCode.notFound ∧
    ErrTeamNotFound.code ≠ ErrorCode.badRequest := by
  have hbody : deactivateTeamUsersBody req s = (Except.error ErrTeamNotFound, s) := by
    simp [deactivateTeamUsersBody, getValidTeamUserIDsForDeactivation, getTeam, h]
  refine ⟨hbody, ?_, rfl, by decide⟩
  simp [deactivateTeamUsers, withinTransaction, hbody]

/-- Witness for the team-not-found theorem, on the empty store. -/
theorem deactivateTeamUsers_team_not_found_witness :
    teamExistsB ⟨[], [], [], []⟩ "t" = false ∧
    deactivateTeamUsersBody ⟨"t", ["u1"]⟩ ⟨[], [], [], []⟩ =
      (Except.error ErrTeamNotFound, ⟨[], [], [], []⟩) :=
  ⟨rfl, (deactivateTeamUsers_team_not_found ⟨[], [], [], []⟩ ⟨"t", ["u1"]⟩ rfl).1⟩

/-- A store with one team t whose only member u1 is active, used to witness the
validation theorems. -/
def validationStore : Store :=
  { teams := ["t"]
    users := [⟨"u1", "u1", "t", true⟩]
    prs := []
    prReviewers := [] }

/-- C6: in DeactivateTeamUsers, a requested user id is kept by the validation
filter exactly when the user exists and belongs to the given team (all other
ids are dropped silently), and when no requested id survives the filter the
operation fails with BadRequest ("no valid users to deactivate") leaving the
store unchanged. -/
theorem deactivateTeamUsers_validation (s : Store) (req : DeactivateTeamUsersRequest) :
    (∀ uid, uid ∈ filterValidTeamUsers s req ↔
      uid ∈ req.userIDs ∧ ∃ u, getUser s uid = Except.ok u ∧ u.teamName = req.teamName) ∧
    (teamExistsB s req.teamName = true →
      filterValidTeamUsers s req = [] →
      deactivateTeamUsersBody req s =
        (Except.error ⟨ErrorCode.badRequest, "no valid users to deactivate"⟩, s)) := by
  constructor
  · intro uid
    exact mem_filterValidTeamUsersList s req.teamName req.userIDs uid
  · intro ht hempty
    simp [deactivateTeamUsersBody, getValidTeamUserIDsForDeactivation, getTeam, ht,
      hempty]

/-- Witness for the validation theorem: requesting only the unknown id zz on an
existing team fails with BadRequest and no state change. -/
theorem deactivateTeamUsers_validation_witness :
    deactivateTeamUsersBody ⟨"t", ["zz"]⟩ validationStore =
      (Except.error ⟨ErrorCode.badRequest, "no valid users to deactivate"⟩,
        validationStore) :=
  (deactivateTeamUsers_validation validationStore ⟨"t", ["zz"]⟩).2 rfl rfl

theorem isValidReplacementCandidate_eq (c : User) (a : String) (asg d : List String) :
    isValidReplacementCandidate c a asg d =
      (!(c.userID == a) && !(asg.contains c.userID) && !(d.contains c.userID)) := by
  unfold isValidReplacementCandidate
  cases h1 : (c.userID == a) <;> cases h2 : asg.contains c.userID <;>
    cases h3 : d.contains c.userID <;> simp [h1, h2, h3]

theorem findFirstValidCandidate_eq_find (cs : List User) (a : String)
    (asg d : List String) :
    findFirstValidCandidate cs a asg d =
      match cs.find? (fun c => isValidReplacementCandidate c a asg d) with
      | some c => c.userID
      | none => "" := by
  induction cs with
  | nil => rfl
  | cons c rest ih =>
    simp only [findFirstValidCandidate, List.find?]
    cases h : isValidReplacementCandidate c a asg d <;> simp [h, ih]

/-- A store used to witness the reconciler's replacement rule: the team t holds
the author u1, the removed reviewer u2 and two further active members u3, u4. -/
def reconcileStore : Store :=
  { teams := ["t"]
    users := [⟨"u1", "u1", "t", true⟩, ⟨"u2", "u2", "t", true⟩,
              ⟨"u3", "u3", "t", true⟩, ⟨"u4", "u4", "t", true⟩]
    prs := [⟨"pr1", "x", "u1", PRStatus.opened, some 1, none⟩]
    prReviewers := [("pr1", ["u2"])] }

/-- C2: in DeactivateTeamUsers, the replacement for a removed reviewer is the
first candidate in the enumeration of the active members of the removed
reviewer's own team (excluding that reviewer) that is not the PR author, not
already assigned-or-planned, and not itself in the deactivation batch; the pick
is computed by a deterministic function of the store (no random draw), and when
no candidate qualifies the removed reviewer is dropped: its record carries the
empty replacement, and neither the planned set nor the new-reviewer list
grows. -/
theorem findReviewerReplacement_first_valid (s : Store) (rid : String)
    (author reviewer : User) (assigned deact : List String)
    (h : getUser s rid = Except.ok reviewer) :
    (findReviewerReplacement s rid author assigned deact =
      match (getActiveTeamMembers s reviewer.teamName rid).find? (fun c =>
        !(c.userID == author.userID) && !(assigned.contains c.userID) &&
          !(deact.contains c.userID)) with
      | some c => c.userID
      | none => "") ∧
    (∀ (pr : PullRequest) (restRevs : List String),
      deact.contains rid = true →
      findReviewerReplacement s rid author assigned deact = "" →
      processRemovedReviewers s pr author deact (rid :: restRevs) assigned =
        (⟨pr.pullRequestID, rid, ""⟩ ::
            (processRemovedReviewers s pr author deact restRevs assigned).1,
         rid :: (processRemovedReviewers s pr author deact restRevs assigned).2.1,
         (processRemovedReviewers s pr author deact restRevs assigned).2.2)) := by
  constructor
  · have hpred : (fun c => isValidReplacementCandidate c author.userID assigned deact) =
        (fun c => !(c.userID == author.userID) && !(assigned.contains c.userID) &&
          !(deact.contains c.userID)) := by
      funext c
      exact isValidReplacementCandidate_eq c author.userID assigned deact
    unfold findReviewerReplacement
    rw [h]
    dsimp only
    rw [findFirstValidCandidate_eq_find, hpred]
  · intro pr restRevs hd hrep
    simp only [processRemovedReviewers, hd, if_pos, hrep]
    simp

/-- Witness for the replacement rule: with u2 removed, u1 the author and u3 in
the batch, the chosen replacement is u4, the first qualifying candidate. -/
theorem findReviewerReplacement_first_valid_witness :
    getUser reconcileStore "u2" = Except.ok ⟨"u2", "u2", "t", true⟩ ∧
    findReviewerReplacement reconcileStore "u2" ⟨"u1", "u1", "t", true⟩ []
        ["u2", "u3"] = "u4" := by
  constructor
  · rfl
  · rw [(findReviewerReplacement_first_valid reconcileStore "u2" ⟨"u1", "u1", "t", true⟩
      ⟨"u2", "u2", "t", true⟩ [] ["u2", "u3"] rfl).1]
    rfl

theorem length_filterMap_getElem (cand : List User) (t : List Nat)
    (h : ∀ i ∈ t, i < cand.length) :
    (t.filterMap (fun i => cand[i]?)).length = t.length := by
  induction t with
  | nil => rfl
  | cons i rest ih =>
    have hi : i < cand.length := h i (List.mem_cons_self _ _)
    rw [List.filterMap_cons]
    rw [List.getElem?_eq_getElem hi]
    simp only [List.length_cons]
    rw [ih (fun j hj => h j (List.mem_cons_of_mem _ hj))]

theorem mem_filterMap_getElem {cand : List User} {t : List Nat} {x : User}
    (h : x ∈ t.filterMap (fun i => cand[i]?)) : x ∈ cand := by
  rcases List.mem_filterMap.mp h with ⟨i, _, hi⟩
  exact List.getElem?_mem hi

theorem userID_index_inj (cand : List User) (hc : (cand.map User.userID).Nodup)
    {i j : Nat} (hi : i < cand.length) (hj : j < cand.length)
    (h : (cand.get ⟨i, hi⟩).userID = (cand.get ⟨j, hj⟩).userID) : i = j := by
  have hlen : (cand.map User.userID).length = cand.length := List.length_map _ _
  have hinj := List.nodup_iff_injective_getElem.mp hc
  have hi2 : i < (cand.map User.userID).length := by omega
  have hj2 : j < (cand.map User.userID).length := by omega
  have hh : (cand.map User.userID)[(⟨i, hi2⟩ : Fin (cand.map User.userID).length)] =
      (cand.map User.userID)[(⟨j, hj2⟩ : Fin (cand.map User.userID).length)] := by
    simp only [Fin.getElem_fin, List.getElem_map]
    simpa [List.get_eq_getElem] using h
  have := hinj hh
  exact congrArg Fin.val this

theorem nodup_userID_filterMap (cand : List User) (t : List Nat)
    (hc : (cand.map User.userID).Nodup) (ht : t.Nodup)
    (hlt : ∀ i ∈ t, i < cand.length) :
    ((t.filterMap (fun i => cand[i]?)).map User.userID).Nodup := by
  induction t with
  | nil => simp
  | cons i rest ih =>
    have hi : i < cand.length := hlt i (List.mem_cons_self _ _)
    rcases List.nodup_cons.mp ht with ⟨hnotin, hrest⟩
    rw [List.filterMap_cons, List.getElem?_eq_getElem hi]
    rw [List.map_cons, List.nodup_cons]
    refine ⟨?_, ih hrest (fun j hj => hlt j (List.mem_cons_of_mem _ hj))⟩
    intro hmem
    rcases List.mem_map.mp hmem with ⟨y, hy, hid⟩
    rcases List.mem_filterMap.mp hy with ⟨j, hj, hjy⟩
    have hjlt : j < cand.length := hlt j (List.mem_cons_of_mem _ hj)
    rw [List.getElem?_eq_getElem hjlt] at hjy
    have hyj : y = cand.get ⟨j, hjlt⟩ := by
      injection hjy with hjy
      rw [← hjy]
      simp [List.get_eq_getElem]
    have hij : j = i :=
      userID_index_inj cand hc hjlt hi (by rw [← hyj, hid]; simp [List.get_eq_getElem])
    exact hnotin (hij ▸ hj)

theorem selectReviewers_spec (cand : List User) (perm : List Nat)
    (hperm : perm.Perm (List.range cand.length))
    (hcand : (cand.map User.userID).Nodup) :
    (selectReviewers cand 2 perm).length = min 2 cand.length ∧
    (∀ x ∈ selectReviewers cand 2 perm, x ∈ cand) ∧
    ((selectReviewers cand 2 perm).map User.userID).Nodup := by
  unfold selectReviewers
  by_cases h0 : cand.length = 0
  · simp [h0]
  · by_cases h2 : cand.length ≤ 2
    · rw [if_neg h0, if_pos h2]
      exact ⟨(Nat.min_eq_right h2).symm, fun x hx => hx, hcand⟩
    · rw [if_neg h0, if_neg h2]
      have hlt : 2 < cand.length := by omega
      have hpl : perm.length = cand.length := by
        rw [hperm.length_eq, List.length_range]
      have hnd : perm.Nodup := (hperm.nodup_iff).mpr (List.nodup_range _)
      have hsub : List.Sublist (perm.take 2) perm := List.take_sublist _ _
      have htnd : (perm.take 2).Nodup := hnd.sublist hsub
      have htlt : ∀ i ∈ perm.take 2, i < cand.length := fun i hi =>
        List.mem_range.mp (hperm.mem_iff.mp (hsub.subset hi))
      have htlen : (perm.take 2).length = 2 := by
        rw [List.length_take, hpl]
        omega
      refine ⟨?_, ?_, ?_⟩
      · rw [length_filterMap_getElem cand _ htlt, htlen,
          Nat.min_eq_left (Nat.le_of_lt hlt)]
      · intro x hx
        exact mem_filterMap_getElem hx
      · exact nodup_userID_filterMap cand _ hcand htnd htlt

/-- A store with a five-member team used to witness PR creation: author u1 and
four further members, of which u4 is inactive. -/
def createStore : Store :=
  { teams := ["t"]
    users := [⟨"u1", "u1", "t", true⟩, ⟨"u2", "u2", "t", true⟩,
              ⟨"u3", "u3", "t", true⟩, ⟨"u4", "u4", "t", false⟩,
              ⟨"u5", "u5", "t", true⟩]
    prs := []
    prReviewers := [] }

/-- C1: for every successful CreatePR, the returned reviewer set has size
exactly min(2, number of active members of the author's team excluding the
author), never contains the author, and contains no duplicate user ids; this
holds for every random permutation the selection may draw. -/
theorem createPR_reviewer_set_spec (s : Store) (req : CreatePRRequest) (now : Nat)
    (perm : List Nat) (author : User)
    (hwf : WF s)
    (hnew : prExistsB s req.pullRequestID = false)
    (hauthor : getUser s req.authorID = Except.ok author)
    (hperm : perm.Perm
      (List.range (getActiveTeamMembers s author.teamName req.authorID).length)) :
    ∃ resp s', createPR req now perm s = (Except.ok resp, s') ∧
      resp.assignedReviewers.length =
        min 2 (getActiveTeamMembers s author.teamName req.authorID).length ∧
      req.authorID ∉ resp.assignedReviewers ∧
      resp.assignedReviewers.Nodup := by
  have hcand : ((getActiveTeamMembers s author.teamName req.authorID).map
      User.userID).Nodup := by
    rcases hwf with ⟨husers, -, -, -⟩
    unfold getActiveTeamMembers
    exact List.Nodup.sublist ((List.filter_sublist s.users).map User.userID) husers
  obtain ⟨hlen, hmem, hnd⟩ :=
    selectReviewers_spec (getActiveTeamMembers s author.teamName req.authorID)
      perm hperm hcand
  refine ⟨{ pullRequestID := req.pullRequestID, pullRequestName := req.pullRequestName,
            authorID := req.authorID, status := PRStatus.opened,
            assignedReviewers :=
              (selectReviewers (getActiveTeamMembers s author.teamName req.authorID)
                2 perm).map (fun r => r.userID),
            createdAt := some now, mergedAt := none },
          { s with
            prs := s.prs ++ [⟨req.pullRequestID, req.pullRequestName, req.authorID,
              PRStatus.opened, some now, none⟩],
            prReviewers := setEntry s.prReviewers req.pullRequestID
              ((selectReviewers (getActiveTeamMembers s author.teamName req.authorID)
                2 perm).map (fun r => r.userID)) }, ?_, ?_, ?_, ?_⟩
  · simp only [createPR, withinTransaction, createPRBody, createPRRepo, hnew,
      hauthor, Bool.false_eq_true, if_false]
  · dsimp only
    rw [List.length_map]
    exact hlen
  · dsimp only
    intro hmm
    rcases List.mem_map.mp hmm with ⟨r, hr, hrid⟩
    have hrc := hmem r hr
    unfold getActiveTeamMembers at hrc
    have := (List.mem_filter.mp hrc).2
    rw [hrid] at this
    simp at this
  · dsimp only
    exact hnd

/-- Witness for the CreatePR reviewer-set theorem: author u1 has three active
teammates, so the drawn permutation keeps exactly two distinct reviewers. -/
theorem createPR_reviewer_set_spec_witness :
    ∃ resp s', createPR ⟨"pr1", "x", "u1"⟩ 5 [2, 0, 1] createStore =
        (Except.ok resp, s') ∧
      resp.assignedReviewers.length =
        min 2 (getActiveTeamMembers createStore "t" "u1").length ∧
      "u1" ∉ resp.assignedReviewers ∧
      resp.assignedReviewers.Nodup :=
  createPR_reviewer_set_spec createStore ⟨"pr1", "x", "u1"⟩ 5 [2, 0, 1]
    ⟨"u1", "u1", "t", true⟩ (by decide) rfl rfl (by decide)

theorem getPRWithReviewers_ok_inv {s : Store} {prID : String} {pr : PullRequest}
    {l : List String} (h : getPRWithReviewers s prID = Except.ok (pr, l)) :
    s.prs.find? (fun q => q.pullRequestID == prID) = some pr ∧
      l = lookupD s.prReviewers prID := by
  unfold getPRWithReviewers at h
  cases hf : s.prs.find? (fun q => q.pullRequestID == prID) with
  | none => rw [hf] at h; cases h
  | some q =>
    rw [hf] at h
    injection h with h
    injection h with h1 h2
    exact ⟨by rw [h1], h2.symm⟩

theorem find?_after_merge (s : Store) (prID : String) (now : Nat) (pr : PullRequest)
    (hfind : s.prs.find? (fun q => q.pullRequestID == prID) = some pr) :
    (s.prs.map (fun q => if q.pullRequestID == prID then
        { q with status := PRStatus.merged, mergedAt := some now } else q)).find?
      (fun q => q.pullRequestID == prID) =
      some { pr with status := PRStatus.merged, mergedAt := some now } := by
  rw [find?_map_pred]
  · rw [hfind]
    have hpr : pr.pullRequestID = prID := by
      have := List.find?_some hfind
      simpa [beq_iff_eq] using this
    simp [hpr]
  · intro x
    cases hx : (x.pullRequestID == prID) <;> simp [hx]

/-- C7: calling MergePR twice on the same existing PR succeeds both times and
returns the same terminal state (status MERGED, same merge timestamp, same
reviewer set) both times; the second call does not mutate the store. -/
theorem mergePR_idempotent (s : Store) (prID : String) (t1 t2 : Nat)
    (pr : PullRequest) (revs : List String)
    (h : getPRWithReviewers s prID = Except.ok (pr, revs)) :
    ∃ resp s1, mergePR prID t1 s = (Except.ok resp, s1) ∧
      mergePR prID t2 s1 = (Except.ok resp, s1) ∧
      resp.status = PRStatus.merged := by
  obtain ⟨hfind, hl⟩ := getPRWithReviewers_ok_inv h
  cases hst : pr.status with
  | merged =>
    refine ⟨prResponse pr revs, s, ?_, ?_, hst⟩
    · simp [mergePR, withinTransaction, mergePRBody, h, hst]
    · simp [mergePR, withinTransaction, mergePRBody, h, hst]
  | opened =>
    have hex : prExistsB s prID = true := by
      unfold prExistsB
      rw [hfind]
      rfl
    have hread1 : getPRWithReviewers
        { s with prs := s.prs.map (fun q => if q.pullRequestID == prID then
            { q with status := PRStatus.merged, mergedAt := some t1 } else q) } prID =
        Except.ok ({ pr with status := PRStatus.merged, mergedAt := some t1 }, revs) := by
      unfold getPRWithReviewers
      rw [find?_after_merge s prID t1 pr hfind]
      rw [hl]
    refine ⟨prResponse { pr with status := PRStatus.merged, mergedAt := some t1 } revs,
      { s with prs := s.prs.map (fun q => if q.pullRequestID == prID then
          { q with status := PRStatus.merged, mergedAt := some t1 } else q) },
      ?_, ?_, rfl⟩
    · simp only [beq_iff_eq] at hread1
      simp [mergePR, withinTransaction, mergePRBody, h, hst, mergePRRepo, hex, hread1]
    · simp only [beq_iff_eq] at hread1
      simp [mergePR, withinTransaction, mergePRBody, hread1]

/-- A store holding one open PR with two reviewers, used to witness merge
idempotence. -/
def mergeStore : Store :=
  { teams := ["t"]
    users := [⟨"u1", "u1", "t", true⟩, ⟨"u2", "u2", "t", true⟩,
              ⟨"u3", "u3", "t", true⟩]
    prs := [⟨"pr1", "x", "u1", PRStatus.opened, some 1, none⟩]
    prReviewers := [("pr1", ["u2", "u3"])] }

/-- Witness for merge idempotence on a concrete open PR. -/
theorem mergePR_idempotent_witness :
    ∃ resp s1, mergePR "pr1" 10 mergeStore = (Except.ok resp, s1) ∧
      mergePR "pr1" 20 s1 = (Except.ok resp, s1) ∧
      resp.status = PRStatus.merged :=
  mergePR_idempotent mergeStore "pr1" 10 20 ⟨"pr1", "x", "u1", PRStatus.opened, some 1, none⟩
    ["u2", "u3"] rfl

theorem getPRWithReviewers_not_found {s : Store} {prID : String}
    (h : prExistsB s prID = false) :
    getPRWithReviewers s prID = Except.error ErrPRNotFound := by
  unfold prExistsB at h
  unfold getPRWithReviewers
  cases hf : s.prs.find? (fun pr => pr.pullRequestID == prID) with
  | none => rfl
  | some q => rw [hf] at h; cases h

/-- C5: ReassignReviewer fails with PRNotFound when the PR does not exist, with
PRMerged when the PR is MERGED, with ReviewerNotAssigned when the old reviewer
is not currently assigned, and with NoActiveCandidate when the candidate pool
is empty; the checks happen in that order (each case assumes nothing about the
later checks), and in every failure case the transaction body returns the store
unchanged — the reviewer set sees no partial swap. -/
theorem reassignReviewer_failure_cases (s : Store) (req : ReassignRequest) (k : Nat) :
    (prExistsB s req.pullRequestID = false →
      reassignBody req k s = (Except.error ErrPRNotFound, s)) ∧
    (∀ pr reviewers,
      getPRWithReviewers s req.pullRequestID = Except.ok (pr, reviewers) →
      pr.status = PRStatus.merged →
      reassignBody req k s = (Except.error ErrPRMerged, s)) ∧
    (∀ pr reviewers,
      getPRWithReviewers s req.pullRequestID = Except.ok (pr, reviewers) →
      pr.status ≠ PRStatus.merged →
      isReviewerAssigned s req.pullRequestID req.oldUserID = false →
      reassignBody req k s = (Except.error ErrReviewerNotAssigned, s)) ∧
    (∀ pr reviewers oldReviewer,
      getPRWithReviewers s req.pullRequestID = Except.ok (pr, reviewers) →
      pr.status ≠ PRStatus.merged →
      isReviewerAssigned s req.pullRequestID req.oldUserID = true →
      getUser s req.oldUserID = Except.ok oldReviewer →
      filterAvailableReviewers
        (getActiveTeamMembers s oldReviewer.teamName req.oldUserID) pr reviewers = [] →
      reassignBody req k s = (Except.error ErrNoActiveCandidate, s)) := by
  refine ⟨?_, ?_, ?_, ?_⟩
  · intro hmiss
    simp [reassignBody, getPRWithReviewers_not_found hmiss]
  · intro pr reviewers hpr hst
    simp [reassignBody, hpr, hst]
  · intro pr reviewers hpr hst hna
    have hst2 : (pr.status == PRStatus.merged) = false := by
      cases h : pr.status
      · rfl
      · exact absurd h hst
    simp [reassignBody, hpr, hst2, hna]
  · intro pr reviewers oldReviewer hpr hst hia hold hpool
    have hst2 : (pr.status == PRStatus.merged) = false := by
      cases h : pr.status
      · rfl
      · exact absurd h hst
    simp [reassignBody, hpr, hst2, hia, hold, hpool]

/-- A store with a merged PR and an understaffed open PR, used to witness the
reassignment failure cases. -/
def failureStore : Store :=
  { teams := ["t"]
    users := [⟨"u1", "u1", "t", true⟩, ⟨"u2", "u2", "t", true⟩]
    prs := [⟨"prm", "m", "u1", PRStatus.merged, some 1, some 2⟩,
            ⟨"pro", "o", "u1", PRStatus.opened, some 1, none⟩]
    prReviewers := [("prm", ["u2"]), ("pro", ["u2"])] }

/-- Witness for the four reassignment failure cases, each at a concrete
request against failureStore (or the empty store for the missing PR). -/
theorem reassignReviewer_failure_cases_witness :
    reassignBody ⟨"nope", "u2"⟩ 0 failureStore =
      (Except.error ErrPRNotFound, failureStore) ∧
    reassignBody ⟨"prm", "u2"⟩ 0 failureStore =
      (Except.error ErrPRMerged, failureStore) ∧
    reassignBody ⟨"pro", "u9"⟩ 0 failureStore =
      (Except.error ErrReviewerNotAssigned, failureStore) ∧
    reassignBody ⟨"pro", "u2"⟩ 0 failureStore =
      (Except.error ErrNoActiveCandidate, failureStore) := by
  refine ⟨?_, ?_, ?_, ?_⟩
  · exact (reassignReviewer_failure_cases failureStore ⟨"nope", "u2"⟩ 0).1 rfl
  · exact (reassignReviewer_failure_cases failureStore ⟨"prm", "u2"⟩ 0).2.1
      ⟨"prm", "m", "u1", PRStatus.merged, some 1, some 2⟩ ["u2"] rfl rfl
  · exact (reassignReviewer_failure_cases failureStore ⟨"pro", "u9"⟩ 0).2.2.1
      ⟨"pro", "o", "u1", PRStatus.opened, some 1, none⟩ ["u2"] rfl (by decide) rfl
  · exact (reassignReviewer_failure_cases failureStore ⟨"pro", "u2"⟩ 0).2.2.2
      ⟨"pro", "o", "u1", PRStatus.opened, some 1, none⟩ ["u2"] ⟨"u2", "u2", "t", true⟩
      rfl (by decide) rfl rfl rfl

theorem contains_iff_mem {l : List String} {a : String} :
    l.contains a = true ↔ a ∈ l := by
  constructor
  · exact fun h => List.mem_of_elem_eq_true h
  · exact fun h => List.elem_eq_true_of_mem h

theorem getPRWithReviewers_after_swap (s : Store) (prID oldID newID : String)
    (pr : PullRequest) (l : List String)
    (hpr : getPRWithReviewers s prID = Except.ok (pr, l))
    (hold : l.contains oldID = true) :
    getPRWithReviewers (addReviewerRepo (removeReviewerRepo s prID oldID) prID newID)
      prID = Except.ok (pr, removeFirst l oldID ++ [newID]) := by
  obtain ⟨hfind, hl⟩ := getPRWithReviewers_ok_inv hpr
  subst hl
  unfold removeReviewerRepo
  rw [hold, if_pos rfl]
  unfold addReviewerRepo getPRWithReviewers
  dsimp only
  rw [hfind]
  dsimp only
  rw [lookupD_setEntry, if_pos rfl, lookupD_setEntry, if_pos rfl]

/-- C4: for every successful ReassignReviewer, the returned reviewer set does
not contain the old reviewer and contains the new reviewer exactly once; the
new reviewer is never the PR author, was not assigned to the PR before the
call, and is an active member of the old reviewer's team. -/
theorem reassignReviewer_success_spec (s : Store) (req : ReassignRequest) (k : Nat)
    (resp : ReassignResponse) (s' : Store) (hwf : WF s)
    (h : reassignBody req k s = (Except.ok resp, s')) :
    req.oldUserID ∉ resp.pr.assignedReviewers ∧
    resp.pr.assignedReviewers.count resp.replacedBy = 1 ∧
    resp.replacedBy ≠ resp.pr.authorID ∧
    resp.replacedBy ∉ lookupD s.prReviewers req.pullRequestID ∧
    ∃ u, getUser s req.oldUserID = Except.ok u ∧
      ∃ c ∈ getActiveTeamMembers s u.teamName req.oldUserID,
        c.userID = resp.replacedBy ∧ c.isActive = true := by
  unfold reassignBody at h
  cases hpr : getPRWithReviewers s req.pullRequestID with
  | error e => rw [hpr] at h; simp at h
  | ok prl =>
    obtain ⟨pr, l⟩ := prl
    rw [hpr] at h
    dsimp only at h
    cases hst : (pr.status == PRStatus.merged) with
    | true => rw [hst] at h; simp at h
    | false =>
      rw [hst] at h
      simp only [Bool.false_eq_true, if_false] at h
      cases hia : isReviewerAssigned s req.pullRequestID req.oldUserID with
      | false => rw [hia] at h; simp at h
      | true =>
        rw [hia] at h
        simp only [Bool.not_true, Bool.false_eq_true, if_false] at h
        cases hold : getUser s req.oldUserID with
        | error e => rw [hold] at h; simp at h
        | ok oldReviewer =>
          rw [hold] at h
          dsimp only at h
          cases hav : filterAvailableReviewers
              (getActiveTeamMembers s oldReviewer.teamName req.oldUserID) pr l with
          | nil => rw [hav] at h; simp at h
          | cons a rest =>
            rw [hav] at h
            dsimp only at h
            have hcontains : l.contains req.oldUserID = true := by
              have hh := hia
              unfold isReviewerAssigned at hh
              rw [← (getPRWithReviewers_ok_inv hpr).2] at hh
              exact hh
            rw [getPRWithReviewers_after_swap s req.pullRequestID req.oldUserID
              ((a :: rest).getD (k % (rest.length + 1)) a).userID pr l hpr hcontains] at h
            dsimp only at h
            have h1 := congrArg Prod.fst h
            dsimp only at h1
            injection h1 with h1
            set newR := (a :: rest).getD (k % (rest.length + 1)) a with hnewR
            have hrespPR : resp.pr = prResponse pr (removeFirst l req.oldUserID ++
                [newR.userID]) := by rw [← h1]
            have hrespBy : resp.replacedBy = newR.userID := by rw [← h1]
            have hlold : l = lookupD s.prReviewers req.pullRequestID :=
              (getPRWithReviewers_ok_inv hpr).2
            have hmemold : req.oldUserID ∈ l := contains_iff_mem.mp hcontains
            have hnodup : l.Nodup := by
              rcases hwf with ⟨-, -, hrev, -⟩
              rcases lookupD_eq_nil_or_mem s.prReviewers req.pullRequestID with hnil | he
              · rw [← hlold] at hnil
                rw [hnil] at hmemold
                cases hmemold
              · obtain ⟨e, hem, hev⟩ := he
                rw [← hlold] at hev
                rw [← hev]
                exact hrev e hem
            have hmemav : newR ∈ a :: rest := by
              have hidx : k % (rest.length + 1) < (a :: rest).length := by
                simp only [List.length_cons]
                exact Nat.mod_lt _ (Nat.succ_pos _)
              rw [hnewR, List.getD_eq_getElem?_getD, List.getElem?_eq_getElem hidx]
              exact List.getElem_mem _
            rw [← hav] at hmemav
            unfold filterAvailableReviewers at hmemav
            obtain ⟨hmemc, hpredB⟩ := List.mem_filter.mp hmemav
            rw [Bool.and_eq_true] at hpredB
            obtain ⟨hnotauth, hnotassigned⟩ := hpredB
            have hnotauth2 : newR.userID ≠ pr.authorID := by
              intro hcon
              rw [Bool.not_eq_eq_eq_not] at hnotauth
              simp only [Bool.not_true] at hnotauth
              rw [beq_eq_false_iff_ne] at hnotauth
              exact hnotauth hcon
            have hnotin : newR.userID ∉ l := by
              intro hcon
              rw [Bool.not_eq_eq_eq_not] at hnotassigned
              simp only [Bool.not_true] at hnotassigned
              rw [← Bool.not_eq_true] at hnotassigned
              exact hnotassigned (contains_iff_mem.mpr hcon)
            refine ⟨?_, ?_, ?_, ?_, oldReviewer, rfl, newR, hmemc, hrespBy.symm, ?_⟩
            · rw [hrespPR]
              unfold prResponse
              dsimp only
              intro hcon
              rcases List.mem_append.mp hcon with hmm | hmm
              · exact not_mem_removeFirst_self hnodup hmm
              · have : req.oldUserID = newR.userID := by simpa using hmm
                rw [this] at hmemold
                exact hnotin hmemold
            · rw [hrespPR, hrespBy]
              unfold prResponse
              dsimp only
              rw [List.count_append]
              have hz : (removeFirst l req.oldUserID).count newR.userID = 0 :=
                List.count_eq_zero.mpr (fun hc => hnotin (mem_removeFirst hc))
              rw [hz]
              simp
            · rw [hrespPR, hrespBy]
              unfold prResponse
              dsimp only
              exact hnotauth2
            · rw [hrespBy, ← hlold]
              exact hnotin
            · unfold getActiveTeamMembers at hmemc
              have := (List.mem_filter.mp hmemc).2
              rw [Bool.and_eq_true, Bool.and_eq_true] at this
              exact this.1.2

/-- The response of replacing u2 on pr1 of reconcileStore with random draw 0:
the pool is [u3, u4] and u3 is picked. -/
def reassignWitnessResp : ReassignResponse :=
  ⟨⟨"pr1", "x", "u1", PRStatus.opened, ["u3"], some 1, none⟩, "u3"⟩

/-- Witness for the reassignment success theorem: on reconcileStore, replacing
u2 on pr1 succeeds with u3, and the theorem's conclusions hold. -/
theorem reassignReviewer_success_spec_witness :
    "u2" ∉ reassignWitnessResp.pr.assignedReviewers ∧
    reassignWitnessResp.pr.assignedReviewers.count reassignWitnessResp.replacedBy = 1 ∧
    reassignWitnessResp.replacedBy ≠ reassignWitnessResp.pr.authorID ∧
    reassignWitnessResp.replacedBy ∉ lookupD reconcileStore.prReviewers "pr1" ∧
    ∃ u, getUser reconcileStore "u2" = Except.ok u ∧
      ∃ c ∈ getActiveTeamMembers reconcileStore u.teamName "u2",
        c.userID = reassignWitnessResp.replacedBy ∧ c.isActive = true :=
  reassignReviewer_success_spec reconcileStore ⟨"pr1", "u2"⟩ 0 reassignWitnessResp
    { reconcileStore with prReviewers := [("pr1", ["u3"])] } (by decide) rfl

/-! Lemmas for the mass-deactivation reconciler. -/

theorem lookupD_foldl_applyReassignment (recs : List PRReassignment) :
    ∀ (m : List (String × List String)) (p : String),
      lookupD (recs.foldl applyReassignment m) p =
        (recs.filter (fun rec => rec.pullRequestID == p)).foldl reassignOne
          (lookupD m p) := by
  induction recs with
  | nil => intro m p; rfl
  | cons rec rest ih =>
    intro m p
    rw [List.foldl_cons, ih, List.filter_cons]
    by_cases hp : rec.pullRequestID = p
    · have hb : (rec.pullRequestID == p) = true := beq_iff_eq.mpr hp
      rw [hb]
      simp only [if_true, List.foldl_cons]
      unfold applyReassignment
      rw [lookupD_setEntry, if_pos hp, hp]
    · have hb : (rec.pullRequestID == p) = false := by
        simp [hp]
      rw [hb]
      simp only [Bool.false_eq_true, if_false]
      unfold applyReassignment
      rw [lookupD_setEntry, if_neg hp]

theorem reassign_removes_deactivated (D : List String) (recs : List PRReassignment) :
    ∀ (l : List String),
      (∀ rec ∈ recs, rec.newReviewerID = "" ∨ D.contains rec.newReviewerID = false) →
      (∀ d, D.contains d = true → d ∈ l → ∃ rec ∈ recs, rec.oldReviewerID = d) →
      ∀ d, D.contains d = true → d ∉ recs.foldl reassignOne l := by
  induction recs with
  | nil =>
    intro l _ hcover d hd hmem
    rcases hcover d hd hmem with ⟨rec, hrec, -⟩
    cases hrec
  | cons rec rest ih =>
    intro l hvalid hcover d hd
    rw [List.foldl_cons]
    apply ih (reassignOne l rec) (fun r hr => hvalid r (List.mem_cons_of_mem _ hr))
      ?_ d hd
    intro d' hd' hmem'
    unfold reassignOne at hmem'
    by_cases hnew : rec.newReviewerID = ""
    · rw [if_pos (beq_iff_eq.mpr hnew)] at hmem'
      obtain ⟨hl, hne⟩ := List.mem_filter.mp hmem'
      have hne2 : rec.oldReviewerID ≠ d' := by
        intro hcon
        rw [Bool.not_eq_eq_eq_not, Bool.not_true, beq_eq_false_iff_ne] at hne
        exact hne hcon.symm
      rcases hcover d' hd' hl with ⟨r, hrmem, hrold⟩
      rcases List.mem_cons.mp hrmem with rfl | hmm
      · exact absurd hrold hne2
      · exact ⟨r, hmm, hrold⟩
    · rw [if_neg (by simpa [beq_iff_eq] using hnew)] at hmem'
      rcases List.mem_append.mp hmem' with hmm | hmm
      · obtain ⟨hl, hne⟩ := List.mem_filter.mp hmm
        have hne2 : rec.oldReviewerID ≠ d' := by
          intro hcon
          rw [Bool.not_eq_eq_eq_not, Bool.not_true, beq_eq_false_iff_ne] at hne
          exact hne hcon.symm
        rcases hcover d' hd' hl with ⟨r, hrmem, hrold⟩
        rcases List.mem_cons.mp hrmem with rfl | hmm2
        · exact absurd hrold hne2
        · exact ⟨r, hmm2, hrold⟩
      · have : d' = rec.newReviewerID := by simpa using hmm
        rcases hvalid rec (List.mem_cons_self _ _) with hcon | hcon
        · exact absurd hcon (this ▸ hnew)
        · rw [this] at hd'
          rw [hd'] at hcon
          cases hcon

theorem findFirstValidCandidate_cases (cs : List User) (a : String)
    (asg d : List String) :
    findFirstValidCandidate cs a asg d = "" ∨
    ∃ c ∈ cs, findFirstValidCandidate cs a asg d = c.userID ∧
      isValidReplacementCandidate c a asg d = true := by
  induction cs with
  | nil => exact Or.inl rfl
  | cons c rest ih =>
    unfold findFirstValidCandidate
    cases hv : isValidReplacementCandidate c a asg d
    · simp only [Bool.false_eq_true, if_false]
      rcases ih with h | ⟨c', hc', heq, hval⟩
      · exact Or.inl h
      · exact Or.inr ⟨c', List.mem_cons_of_mem _ hc', heq, hval⟩
    · simp only [if_true]
      exact Or.inr ⟨c, List.mem_cons_self _ _, rfl, hv⟩

theorem findReviewerReplacement_cases (s : Store) (rid : String) (author : User)
    (asg D : List String) :
    findReviewerReplacement s rid author asg D = "" ∨
    D.contains (findReviewerReplacement s rid author asg D) = false := by
  unfold findReviewerReplacement
  cases hu : getUser s rid with
  | error e => exact Or.inl rfl
  | ok reviewer =>
    dsimp only
    rcases findFirstValidCandidate_cases
        (getActiveTeamMembers s reviewer.teamName rid) author.userID asg D with
      h | ⟨c, -, heq, hval⟩
    · exact Or.inl h
    · right
      rw [heq]
      rw [isValidReplacementCandidate_eq, Bool.and_eq_true, Bool.and_eq_true] at hval
      have := hval.2
      rwa [Bool.not_eq_eq_eq_not, Bool.not_true] at this

theorem processRemoved_olds (s : Store) (pr : PullRequest) (author : User)
    (D : List String) :
    ∀ (revs asg : List String),
      ((processRemovedReviewers s pr author D revs asg).1.map
        (fun rec => rec.oldReviewerID)) = revs.filter (fun r => D.contains r) := by
  intro revs
  induction revs with
  | nil => intro asg; rfl
  | cons r rest ih =>
    intro asg
    unfold processRemovedReviewers
    cases hd : D.contains r
    · simp only [Bool.false_eq_true, if_false, List.filter_cons, hd]
      exact ih asg
    · simp only [if_true, List.filter_cons, hd, List.map_cons]
      rw [ih]

theorem processRemoved_rec_fields (s : Store) (pr : PullRequest) (author : User)
    (D : List String) :
    ∀ (revs asg : List String),
      ∀ rec ∈ (processRemovedReviewers s pr author D revs asg).1,
        rec.pullRequestID = pr.pullRequestID ∧
        (rec.newReviewerID = "" ∨ D.contains rec.newReviewerID = false) := by
  intro revs
  induction revs with
  | nil => intro asg rec hrec; cases hrec
  | cons r rest ih =>
    intro asg rec hrec
    unfold processRemovedReviewers at hrec
    cases hd : D.contains r
    · rw [hd] at hrec
      simp only [Bool.false_eq_true, if_false] at hrec
      exact ih asg rec hrec
    · rw [hd] at hrec
      simp only [if_true] at hrec
      rcases List.mem_cons.mp hrec with rfl | hmm
      · exact ⟨rfl, findReviewerReplacement_cases s r author asg D⟩
      · exact ih _ rec hmm

theorem processPR_rec_fields (s : Store) (pr : PullRequest)
    (cur D : List String) :
    ∀ rec ∈ (processPRReassignments s pr cur D).1,
      rec.pullRequestID = pr.pullRequestID ∧
      (rec.newReviewerID = "" ∨ D.contains rec.newReviewerID = false) := by
  intro rec hrec
  unfold processPRReassignments at hrec
  cases hu : getUser s pr.authorID with
  | error e => rw [hu] at hrec; cases hrec
  | ok author =>
    rw [hu] at hrec
    dsimp only at hrec
    exact processRemoved_rec_fields s pr author D cur _ rec hrec

theorem plan_rec_mem (s : Store) (rmap : List (String × List String))
    (D : List String) :
    ∀ (prs : List PullRequest),
      ∀ rec ∈ (planReviewerReassignments s prs rmap D).1,
        ∃ pr ∈ prs,
          rec ∈ (processPRReassignments s pr (lookupD rmap pr.pullRequestID) D).1 := by
  intro prs
  induction prs with
  | nil => intro rec hrec; cases hrec
  | cons q rest ih =>
    intro rec hrec
    unfold planReviewerReassignments at hrec
    dsimp only at hrec
    rcases List.mem_append.mp hrec with hmm | hmm
    · exact ⟨q, List.mem_cons_self _ _, hmm⟩
    · rcases ih rec hmm with ⟨pr, hpr, hmem⟩
      exact ⟨pr, List.mem_cons_of_mem _ hpr, hmem⟩

theorem plan_filter_eq_nil (s : Store) (rmap : List (String × List String))
    (D : List String) (prs : List PullRequest) (p : String)
    (h : ∀ q ∈ prs, q.pullRequestID ≠ p) :
    (planReviewerReassignments s prs rmap D).1.filter
      (fun rec => rec.pullRequestID == p) = [] := by
  rw [List.filter_eq_nil_iff]
  intro rec hrec
  rcases plan_rec_mem s rmap D prs rec hrec with ⟨pr, hpr, hmem⟩
  have hid := (processPR_rec_fields s pr (lookupD rmap pr.pullRequestID) D rec hmem).1
  simp only [beq_iff_eq, hid]
  exact h pr hpr

theorem plan_filter_eq (s : Store) (rmap : List (String × List String))
    (D : List String) :
    ∀ (prs : List PullRequest),
      (prs.map PullRequest.pullRequestID).Nodup →
      ∀ pr ∈ prs,
        (planReviewerReassignments s prs rmap D).1.filter
            (fun rec => rec.pullRequestID == pr.pullRequestID) =
          (processPRReassignments s pr (lookupD rmap pr.pullRequestID) D).1 := by
  intro prs
  induction prs with
  | nil => intro _ pr hpr; cases hpr
  | cons q rest ih =>
    intro hnd pr hpr
    rw [List.map_cons, List.nodup_cons] at hnd
    obtain ⟨hqid, hndrest⟩ := hnd
    unfold planReviewerReassignments
    dsimp only
    rw [List.filter_append]
    rcases List.mem_cons.mp hpr with rfl | hmem
    · have h1 : (processPRReassignments s pr
          (lookupD rmap pr.pullRequestID) D).1.filter
            (fun rec => rec.pullRequestID == pr.pullRequestID) =
          (processPRReassignments s pr (lookupD rmap pr.pullRequestID) D).1 := by
        rw [List.filter_eq_self]
        intro rec hrec
        have hid := (processPR_rec_fields s pr
          (lookupD rmap pr.pullRequestID) D rec hrec).1
        simp [hid]
      have h2 : (planReviewerReassignments s rest rmap D).1.filter
          (fun rec => rec.pullRequestID == pr.pullRequestID) = [] := by
        apply plan_filter_eq_nil
        intro q2 hq2 hcon
        exact hqid (hcon ▸ (List.mem_map.mpr ⟨q2, hq2, rfl⟩))
      rw [h1, h2, List.append_nil]
    · have h1 : (processPRReassignments s q
          (lookupD rmap q.pullRequestID) D).1.filter
            (fun rec => rec.pullRequestID == pr.pullRequestID) = [] := by
        rw [List.filter_eq_nil_iff]
        intro rec hrec
        have hid := (processPR_rec_fields s q
          (lookupD rmap q.pullRequestID) D rec hrec).1
        simp only [beq_iff_eq, hid]
        intro hcon
        exact hqid (hcon ▸ (List.mem_map.mpr ⟨pr, hmem, rfl⟩))
      rw [h1, List.nil_append]
      exact ih hndrest pr hmem

theorem lookupD_map_self (g : String → List String) :
    ∀ (prs : List PullRequest) (pr : PullRequest), pr ∈ prs →
      lookupD (prs.map (fun q => (q.pullRequestID, g q.pullRequestID)))
        pr.pullRequestID = g pr.pullRequestID := by
  intro prs
  induction prs with
  | nil => intro pr hpr; cases hpr
  | cons q rest ih =>
    intro pr hpr
    rw [List.map_cons]
    unfold lookupD
    by_cases hq : q.pullRequestID = pr.pullRequestID
    · rw [if_pos (beq_iff_eq.mpr hq), hq]
    · rw [if_neg (by simpa [beq_iff_eq] using hq)]
      rcases List.mem_cons.mp hpr with rfl | hmem
      · exact absurd rfl hq
      · exact ih pr hmem

theorem deactivateUsersRepo_prs (ids : List String) :
    ∀ s : Store, (deactivateUsersRepo s ids).prs = s.prs := by
  induction ids with
  | nil => intro s; rfl
  | cons uid rest ih => intro s; exact ih _

theorem deactivateUsersRepo_prReviewers (ids : List String) :
    ∀ s : Store, (deactivateUsersRepo s ids).prReviewers = s.prReviewers := by
  induction ids with
  | nil => intro s; rfl
  | cons uid rest ih => intro s; exact ih _

theorem applyDeactivationChanges_eq (s : Store) (validUserIDs : List String)
    (reassignments : List PRReassignment) :
    applyDeactivationChanges s validUserIDs reassignments =
      deactivateUsersRepo (bulkReassignReviewers s reassignments) validUserIDs := by
  unfold applyDeactivationChanges
  cases reassignments with
  | nil => rfl
  | cons rec rest =>
    dsimp only
    rw [if_pos (by simp)]

theorem getUser_setInactive_step (s : Store) (uid q : String) :
    getUser { s with users := s.users.map (fun u =>
        if u.userID == uid then { u with isActive := false } else u) } q =
      (getUser s q).map (fun u =>
        if u.userID == uid then { u with isActive := false } else u) := by
  unfold getUser
  dsimp only
  rw [find?_map_pred]
  · cases s.users.find? (fun u => u.userID == q) <;> rfl
  · intro x
    cases hx : (x.userID == uid) <;> simp [hx]

theorem getUser_deactivateUsersRepo (ids : List String) :
    ∀ (s : Store) (q : String),
      getUser (deactivateUsersRepo s ids) q =
        (getUser s q).map (fun u =>
          if ids.contains u.userID then { u with isActive := false } else u) := by
  induction ids with
  | nil =>
    intro s q
    cases h : getUser s q <;> simp [deactivateUsersRepo, h, Except.map]
  | cons uid rest ih =>
    intro s q
    have hstep : deactivateUsersRepo s (uid :: rest) =
        deactivateUsersRepo { s with users := s.users.map (fun u =>
          if u.userID == uid then { u with isActive := false } else u) } rest := rfl
    rw [hstep, ih, getUser_setInactive_step]
    cases h : getUser s q with
    | error e => rfl
    | ok u =>
      simp only [Except.map]
      cases hx : (u.userID == uid)
      · simp only [Bool.false_eq_true, if_false]
        have : ((uid :: rest).contains u.userID) = (rest.contains u.userID) := by
          simp only [List.contains_cons]
          have : (u.userID == uid) = false := hx
          rw [this]
          simp
        rw [this]
      · simp only [if_true]
        have h1 : ((uid :: rest).contains u.userID) = true := by
          simp only [List.contains_cons]
          rw [hx]
          simp
        rw [h1]
        simp only [if_true]
        cases hr : (rest.contains u.userID) <;> simp

theorem getUser_isOk_of_author (s : Store) (aid : String)
    (h : ∃ u ∈ s.users, u.userID = aid) :
    ∃ u, getUser s aid = Except.ok u := by
  obtain ⟨u, hmem, hid⟩ := h
  unfold getUser
  cases hf : s.users.find? (fun v => v.userID == aid) with
  | none =>
    rw [List.find?_eq_none] at hf
    exact absurd (beq_iff_eq.mpr hid) (by simpa using hf u hmem)
  | some v => exact ⟨v, rfl⟩

/-- The store reconcileStore after deactivating u2: u2 inactive and replaced by
u3 on pr1. -/
def deactWitnessFinal : Store :=
  { teams := ["t"]
    users := [⟨"u1", "u1", "t", true⟩, ⟨"u2", "u2", "t", false⟩,
              ⟨"u3", "u3", "t", true⟩, ⟨"u4", "u4", "t", true⟩]
    prs := [⟨"pr1", "x", "u1", PRStatus.opened, some 1, none⟩]
    prReviewers := [("pr1", ["u3"])] }

theorem deactivation_clears_open_reviewers (s : Store) (V : List String)
    (hprs : (s.prs.map PullRequest.pullRequestID).Nodup)
    (hauth : ∀ pr ∈ s.prs, ∃ u ∈ s.users, u.userID = pr.authorID) :
    ∀ pr ∈ s.prs, pr.status = PRStatus.opened → ∀ d, V.contains d = true →
      d ∉ lookupD (bulkReassignReviewers s
        (planReviewerReassignments s (getOpenPRsWithReviewers s V).1
          (getOpenPRsWithReviewers s V).2 V).1).prReviewers pr.pullRequestID := by
  intro pr hmem hopen d hd
  unfold bulkReassignReviewers
  dsimp only
  rw [lookupD_foldl_applyReassignment]
  by_cases hafm :
      ((lookupD s.prReviewers pr.pullRequestID).any (fun r => V.contains r)) = true
  · have hmem_aff : pr ∈ (getOpenPRsWithReviewers s V).1 := by
      unfold getOpenPRsWithReviewers
      dsimp only
      refine List.mem_filter.mpr ⟨hmem, ?_⟩
      rw [hopen, Bool.and_eq_true]
      exact ⟨by decide, hafm⟩
    have haffnd :
        ((getOpenPRsWithReviewers s V).1.map PullRequest.pullRequestID).Nodup := by
      unfold getOpenPRsWithReviewers
      dsimp only
      exact List.Nodup.sublist
        ((List.filter_sublist s.prs).map PullRequest.pullRequestID) hprs
    rw [plan_filter_eq s (getOpenPRsWithReviewers s V).2 V
      (getOpenPRsWithReviewers s V).1 haffnd pr hmem_aff]
    have hrm : lookupD (getOpenPRsWithReviewers s V).2 pr.pullRequestID =
        lookupD s.prReviewers pr.pullRequestID :=
      lookupD_map_self (fun pid => lookupD s.prReviewers pid)
        (getOpenPRsWithReviewers s V).1 pr hmem_aff
    rw [hrm]
    obtain ⟨author, hauthor⟩ := getUser_isOk_of_author s pr.authorID (hauth pr hmem)
    unfold processPRReassignments
    rw [hauthor]
    dsimp only
    refine reassign_removes_deactivated V _ _ ?_ ?_ d hd
    · intro rec hrec
      exact (processRemoved_rec_fields s pr author V _ _ rec hrec).2
    · intro d' hd' hmem'
      have holds := processRemoved_olds s pr author V
        (lookupD s.prReviewers pr.pullRequestID)
        ((lookupD s.prReviewers pr.pullRequestID).filter (fun r => !(V.contains r)))
      have hfm : d' ∈ (lookupD s.prReviewers pr.pullRequestID).filter
          (fun r => V.contains r) :=
        List.mem_filter.mpr ⟨hmem', hd'⟩
      rw [← holds] at hfm
      rcases List.mem_map.mp hfm with ⟨rec, hrec, hrecold⟩
      exact ⟨rec, hrec, hrecold⟩
  · have hne : ∀ q ∈ (getOpenPRsWithReviewers s V).1,
        q.pullRequestID ≠ pr.pullRequestID := by
      intro q hq hcon
      have hqmem : q ∈ s.prs := by
        unfold getOpenPRsWithReviewers at hq
        dsimp only at hq
        exact (List.mem_filter.mp hq).1
      have hqq : q = pr := List.inj_on_of_nodup_map hprs hqmem hmem hcon
      rw [hqq] at hq
      unfold getOpenPRsWithReviewers at hq
      dsimp only at hq
      have hp := (List.mem_filter.mp hq).2
      rw [Bool.and_eq_true] at hp
      exact hafm hp.2
    rw [plan_filter_eq_nil s _ V _ pr.pullRequestID hne]
    intro hmm
    exact hafm (List.any_eq_true.mpr ⟨d, hmm, hd⟩)

theorem getValid_ok_inv {s : Store} {req : DeactivateTeamUsersRequest}
    {V : List String}
    (h : getValidTeamUserIDsForDeactivation s req = Except.ok V) :
    V = filterValidTeamUsers s req := by
  unfold getValidTeamUserIDsForDeactivation at h
  cases hg : getTeam s req.teamName with
  | error e => rw [hg] at h; cases h
  | ok t =>
    rw [hg] at h
    dsimp only at h
    by_cases hl : (filterValidTeamUsers s req).length = 0
    · rw [if_pos hl] at h; cases h
    · rw [if_neg hl] at h
      injection h with h
      exact h.symm

/-- C3: after every successful DeactivateTeamUsers call, every user in the
returned deactivated list has its activity flag false in the final store and is
no longer a reviewer of any open PR; each removed reviewer of each affected PR
is recorded in exactly one reassignment record (replacement possibly absent);
and the final store applies the planned reviewer swaps first and flips the
activity flags second. -/
theorem deactivateTeamUsers_postconditions (s : Store)
    (req : DeactivateTeamUsersRequest) (resp : DeactivateTeamUsersResponse)
    (s' : Store) (hwf : WF s)
    (h : deactivateTeamUsersBody req s = (Except.ok resp, s')) :
    (∀ uid ∈ resp.deactivatedUsers,
      ∃ u, getUser s' uid = Except.ok u ∧ u.isActive = false) ∧
    (∀ pr ∈ s'.prs, pr.status = PRStatus.opened →
      ∀ uid ∈ resp.deactivatedUsers,
        uid ∉ lookupD s'.prReviewers pr.pullRequestID) ∧
    (∀ pr ∈ (getOpenPRsWithReviewers s resp.deactivatedUsers).1,
      ∀ r ∈ lookupD s.prReviewers pr.pullRequestID, r ∈ resp.deactivatedUsers →
        ((planReviewerReassignments s
            (getOpenPRsWithReviewers s resp.deactivatedUsers).1
            (getOpenPRsWithReviewers s resp.deactivatedUsers).2
            resp.deactivatedUsers).1.filter (fun rec =>
          rec.oldReviewerID == r &&
            rec.pullRequestID == pr.pullRequestID)).length = 1) ∧
    s' = deactivateUsersRepo (bulkReassignReviewers s
      (planReviewerReassignments s
        (getOpenPRsWithReviewers s resp.deactivatedUsers).1
        (getOpenPRsWithReviewers s resp.deactivatedUsers).2
        resp.deactivatedUsers).1) resp.deactivatedUsers := by
  obtain ⟨husers, hprs, hrevs, hauth⟩ := hwf
  unfold deactivateTeamUsersBody at h
  cases hv : getValidTeamUserIDsForDeactivation s req with
  | error e => rw [hv] at h; cases h
  | ok V =>
    rw [hv] at h
    dsimp only at h
    have h1 := congrArg Prod.fst h
    have h2 := congrArg Prod.snd h
    dsimp only at h1 h2
    injection h1 with h1
    have hrespV : resp.deactivatedUsers = V := by rw [← h1]
    have hs' : s' = deactivateUsersRepo (bulkReassignReviewers s
        (planReviewerReassignments s (getOpenPRsWithReviewers s V).1
          (getOpenPRsWithReviewers s V).2 V).1) V := by
      rw [← h2, applyDeactivationChanges_eq]
    refine ⟨?_, ?_, ?_, by rw [hrespV, hs']⟩
    · intro uid hmem
      rw [hrespV] at hmem
      have hvalid : ∃ u, getUser s uid = Except.ok u ∧ u.teamName = req.teamName := by
        have := getValid_ok_inv hv
        rw [this] at hmem
        exact (mem_filterValidTeamUsersList s req.teamName req.userIDs uid |>.mp
          hmem).2
      obtain ⟨u, hu, -⟩ := hvalid
      have huid : u.userID = uid := by
        unfold getUser at hu
        cases hf : s.users.find? (fun v => v.userID == uid) with
        | none => rw [hf] at hu; cases hu
        | some v =>
          rw [hf] at hu
          injection hu with hu
          have := List.find?_some hf
          rw [hu] at this
          exact beq_iff_eq.mp this
      rw [hs', getUser_deactivateUsersRepo]
      have hbulk : getUser (bulkReassignReviewers s
          (planReviewerReassignments s (getOpenPRsWithReviewers s V).1
            (getOpenPRsWithReviewers s V).2 V).1) uid = getUser s uid := rfl
      rw [hbulk, hu]
      refine ⟨{ u with isActive := false }, ?_, rfl⟩
      simp only [Except.map]
      rw [huid, if_pos (contains_iff_mem.mpr hmem)]
    · intro pr hpr hopen uid hmem
      rw [hrespV] at hmem
      have hprs_eq : s'.prs = s.prs := by
        rw [hs', deactivateUsersRepo_prs]
        rfl
      have hrev_eq : lookupD s'.prReviewers pr.pullRequestID =
          lookupD (bulkReassignReviewers s
            (planReviewerReassignments s (getOpenPRsWithReviewers s V).1
              (getOpenPRsWithReviewers s V).2 V).1).prReviewers pr.pullRequestID := by
        rw [hs', deactivateUsersRepo_prReviewers]
      rw [hrev_eq]
      rw [hprs_eq] at hpr
      exact deactivation_clears_open_reviewers s V hprs hauth pr hpr hopen uid
        (contains_iff_mem.mpr hmem)
    · intro pr hpr r hrl hrmem
      rw [hrespV] at hpr hrmem ⊢
      have haffnd :
          ((getOpenPRsWithReviewers s V).1.map PullRequest.pullRequestID).Nodup := by
        unfold getOpenPRsWithReviewers
        dsimp only
        exact List.Nodup.sublist
          ((List.filter_sublist s.prs).map PullRequest.pullRequestID) hprs
      rw [← List.filter_filter]
      rw [plan_filter_eq s (getOpenPRsWithReviewers s V).2 V
        (getOpenPRsWithReviewers s V).1 haffnd pr hpr]
      have hrm : lookupD (getOpenPRsWithReviewers s V).2 pr.pullRequestID =
          lookupD s.prReviewers pr.pullRequestID :=
        lookupD_map_self (fun pid => lookupD s.prReviewers pid)
          (getOpenPRsWithReviewers s V).1 pr hpr
      rw [hrm]
      have hprmem : pr ∈ s.prs := by
        unfold getOpenPRsWithReviewers at hpr
        dsimp only at hpr
        exact (List.mem_filter.mp hpr).1
      obtain ⟨author, hauthor⟩ := getUser_isOk_of_author s pr.authorID (hauth pr hprmem)
      unfold processPRReassignments
      rw [hauthor]
      dsimp only
      rw [← List.countP_eq_length_filter]
      have hcomp : List.countP (fun rec => rec.oldReviewerID == r)
          (processRemovedReviewers s pr author V
            (lookupD s.prReviewers pr.pullRequestID)
            ((lookupD s.prReviewers pr.pullRequestID).filter
              (fun x => !(V.contains x)))).1 =
          List.countP (fun x => x == r)
            ((processRemovedReviewers s pr author V
              (lookupD s.prReviewers pr.pullRequestID)
              ((lookupD s.prReviewers pr.pullRequestID).filter
                (fun x => !(V.contains x)))).1.map
              (fun rec => rec.oldReviewerID)) := by
        rw [List.countP_map]
        rfl
      rw [hcomp, processRemoved_olds]
      have hnodup : (lookupD s.prReviewers pr.pullRequestID).Nodup := by
        rcases lookupD_eq_nil_or_mem s.prReviewers pr.pullRequestID with hnil | he
        · rw [hnil] at hrl
          cases hrl
        · obtain ⟨e, hem, hev⟩ := he
          rw [← hev]
          exact hrevs e hem
      have hmf : r ∈ (lookupD s.prReviewers pr.pullRequestID).filter
          (fun x => V.contains x) :=
        List.mem_filter.mpr ⟨hrl, contains_iff_mem.mpr hrmem⟩
      rw [← List.count_eq_countP]
      exact List.count_eq_one_of_mem (List.Nodup.filter _ hnodup) hmf

/-- Witness for the deactivation postconditions: deactivating u2 on
reconcileStore leaves u2 inactive in the final store. -/
theorem deactivateTeamUsers_postconditions_witness :
    ∃ u, getUser deactWitnessFinal "u2" = Except.ok u ∧ u.isActive = false :=
  (deactivateTeamUsers_postconditions reconcileStore ⟨"t", ["u2"]⟩
    ⟨["u2"], [⟨"pr1", ["u2"], ["u3"]⟩]⟩ deactWitnessFinal (by decide) rfl).1
    "u2" (by decide)

theorem filterValid_all (s : Store) (t : String) :
    ∀ ids : List String,
      (∀ uid ∈ ids, ∃ u, getUser s uid = Except.ok u ∧ u.teamName = t) →
      filterValidTeamUsersList s t ids = ids := by
  intro ids
  induction ids with
  | nil => intro _; rfl
  | cons uid rest ih =>
    intro hall
    unfold filterValidTeamUsersList
    rcases hall uid (List.mem_cons_self _ _) with ⟨u, hu, ht⟩
    rw [hu]
    dsimp only
    rw [if_pos (beq_iff_eq.mpr ht)]
    rw [ih (fun v hv => hall v (List.mem_cons_of_mem _ hv))]

/-- C9: the validity filter of DeactivateTeamUsers does not inspect the
activity flag — requested users that exist in the team but are already
inactive are still valid, so the operation succeeds (no BadRequest), lists
them as deactivated again, and still clears any reviewer slots they hold on
open PRs. -/
theorem deactivateTeamUsers_ignores_activity (s : Store)
    (req : DeactivateTeamUsersRequest) (hwf : WF s)
    (hteam : teamExistsB s req.teamName = true)
    (hne : req.userIDs ≠ [])
    (hall : ∀ uid ∈ req.userIDs, ∃ u, getUser s uid = Except.ok u ∧
      u.teamName = req.teamName ∧ u.isActive = false) :
    ∃ resp s', deactivateTeamUsersBody req s = (Except.ok resp, s') ∧
      resp.deactivatedUsers = req.userIDs ∧
      (∀ pr ∈ s'.prs, pr.status = PRStatus.opened →
        ∀ uid ∈ req.userIDs, uid ∉ lookupD s'.prReviewers pr.pullRequestID) := by
  obtain ⟨husers, hprs, hrevs, hauth⟩ := hwf
  have hfil : filterValidTeamUsers s req = req.userIDs := by
    unfold filterValidTeamUsers
    apply filterValid_all
    intro uid hmem
    rcases hall uid hmem with ⟨u, hu, ht, -⟩
    exact ⟨u, hu, ht⟩
  have hvalid : getValidTeamUserIDsForDeactivation s req =
      Except.ok req.userIDs := by
    unfold getValidTeamUserIDsForDeactivation getTeam
    rw [hteam, if_pos rfl]
    dsimp only
    rw [hfil, if_neg (fun hc => hne (List.length_eq_zero.mp hc))]
  have hbody : deactivateTeamUsersBody req s =
      (Except.ok
        { deactivatedUsers := req.userIDs
          reassignedPRs := (planReviewerReassignments s
            (getOpenPRsWithReviewers s req.userIDs).1
            (getOpenPRsWithReviewers s req.userIDs).2 req.userIDs).2 },
       applyDeactivationChanges s req.userIDs
         (planReviewerReassignments s
           (getOpenPRsWithReviewers s req.userIDs).1
           (getOpenPRsWithReviewers s req.userIDs).2 req.userIDs).1) := by
    unfold deactivateTeamUsersBody
    rw [hvalid]
  refine ⟨_, _, hbody, rfl, ?_⟩
  intro pr hpr hopen uid hmem
  rw [applyDeactivationChanges_eq, deactivateUsersRepo_prs] at hpr
  rw [applyDeactivationChanges_eq, deactivateUsersRepo_prReviewers]
  exact deactivation_clears_open_reviewers s req.userIDs hprs hauth pr hpr hopen uid
    (contains_iff_mem.mpr hmem)

/-- A store whose user u2 is already inactive yet still holds a reviewer slot
on the open PR pr1. -/
def inactiveReviewerStore : Store :=
  { teams := ["t"]
    users := [⟨"u1", "u1", "t", true⟩, ⟨"u2", "u2", "t", false⟩,
              ⟨"u3", "u3", "t", true⟩]
    prs := [⟨"pr1", "x", "u1", PRStatus.opened, some 1, none⟩]
    prReviewers := [("pr1", ["u2"])] }

/-- Witness: deactivating the already-inactive u2 succeeds, reports u2 as
deactivated again, and clears its reviewer slot. -/
theorem deactivateTeamUsers_ignores_activity_witness :
    ∃ resp s', deactivateTeamUsersBody ⟨"t", ["u2"]⟩ inactiveReviewerStore =
        (Except.ok resp, s') ∧
      resp.deactivatedUsers = ["u2"] ∧
      (∀ pr ∈ s'.prs, pr.status = PRStatus.opened →
        ∀ uid ∈ ["u2"], uid ∉ lookupD s'.prReviewers pr.pullRequestID) :=
  deactivateTeamUsers_ignores_activity inactiveReviewerStore ⟨"t", ["u2"]⟩
    (by decide) rfl (by decide)
    (by
      intro uid hmem
      have huid : uid = "u2" := by simpa using hmem
      subst huid
      exact ⟨⟨"u2", "u2", "t", false⟩, rfl, rfl, rfl⟩)

end PRReviewer
